import Mathlib

/-!
Verification development for the PocketMCP ingestion-and-indexing pipeline.

This file shallowly embeds the core of the source (the `TextChunker`, the
`DatabaseManager` store operations and fallback similarity search, the
`IngestManager.processBatch`/`ingestBatch`/`search` pipeline and the
`FileWatcher` debounce discipline) as executable Lean definitions, and then
settles the specification claims against them.

Conventions of the embedding:
* JS strings are modelled as `List Char` where character-level operations
  (substring, trim, lastIndexOf) matter, and as `String` elsewhere.
  JS whitespace is modelled on its ASCII subset.
* JS numbers are `Nat`/`Int`; the float constants 0.3/0.5/0.7/1.5 of the
  chunker are modelled by exact integer cross-multiplication.
* `Math.sqrt` (used only inside cosine similarity, a float computation) is
  abstracted as a function parameter `sqrtFn`, and the embedding model of the
  transformer is abstracted as a function parameter `embed`; every theorem
  holds for all instantiations.
* `sha256` is abstracted as a function parameter `hash`; the code relies only
  on it being a function (equal inputs give equal digests).
-/

namespace PocketMCP

/-- JS whitespace (`\s` of the regexes, `String.prototype.trim`), restricted
to the ASCII whitespace characters. -/
def isJsWs (c : Char) : Bool :=
  c == ' ' || c == '\t' || c == '\n' || c == '\r' || c == Char.ofNat 11 || c == Char.ofNat 12

/-- `String.prototype.trim`. -/
def jsTrim (l : List Char) : List Char :=
  ((l.dropWhile isJsWs).reverse.dropWhile isJsWs).reverse

/-- `text.substring(s, e)` (with `0 ≤ s ≤ e`). -/
def jsSub (l : List Char) (s e : Nat) : List Char :=
  (l.drop s).take (e - s)

/-- `text.lastIndexOf(c)`: last index of `c`, or `-1`. -/
def lastIdxOf (l : List Char) (c : Char) : Int :=
  match l.reverse.findIdx? (· == c) with
  | some i => (l.length : Int) - 1 - i
  | none => -1

/-- `text.indexOf(c)`: first index of `c`, or `-1`. -/
def idxOf (l : List Char) (c : Char) : Int :=
  match l.findIdx? (· == c) with
  | some i => (i : Int)
  | none => -1

/-- Sentence-terminal punctuation `[.!?]` of the chunker's sentence regex. -/
def isPunct (c : Char) : Bool :=
  c == '.' || c == '!' || c == '?'

/-- `[A-Z]` of the sentence regex. -/
def isCap (c : Char) : Bool :=
  'A' ≤ c && c ≤ 'Z'

/-- The global regex `[.!?]+(?:\s+(?=[A-Z])|$)` of
`TextChunker.splitIntoSentences`, embedded as a scanner returning the END
positions of the successive matches.  A match is a maximal run of `[.!?]`
that either reaches the end of the text, or is followed by a maximal
nonempty whitespace run whose next character is a capital letter (the greedy
`\s+` with the `(?=[A-Z])` lookahead); a shorter punctuation sub-run can
never match (the character after it is punctuation, neither `\s` nor `$`),
so the scanner resumes after the run on failure and at the match end on
success, exactly as `exec` with `lastIndex` does.  `fuel` bounds the number
of steps; callers pass `l.length`, which suffices since every step consumes
at least one character. -/
def sentenceEnds (fuel : Nat) (l : List Char) (pos : Nat) : List Nat :=
  match fuel with
  | 0 => []
  | fuel + 1 =>
    match l with
    | [] => []
    | c :: _ =>
      if isPunct c then
        let p := (l.takeWhile isPunct).length
        let rest := l.drop p
        if rest.isEmpty then [pos + p]
        else
          let w := (rest.takeWhile isJsWs).length
          let rest2 := rest.drop w
          match rest2 with
          | d :: _ =>
            if 0 < w && isCap d then
              (pos + p + w) :: sentenceEnds fuel rest2 (pos + p + w)
            else sentenceEnds fuel rest (pos + p)
          | [] => sentenceEnds fuel rest (pos + p)
      else sentenceEnds fuel l.tail (pos + 1)

/-- A sentence of `TextChunker.splitIntoSentences`: trimmed text plus the
start/end offsets recorded by the source (`end` is renamed `stop`). -/
structure Sentence where
  text : List Char
  start : Nat
  stop : Nat
deriving DecidableEq, Repr

/-- The loop of `TextChunker.splitIntoSentences`: cut the text at the match
end positions, trim each piece, keep the nonempty ones (the source advances
`lastIndex` even when the trimmed piece is empty), and append the trimmed
remainder after the last match when nonempty. -/
def sentencesFromEnds (l : List Char) : Nat → List Nat → List Sentence
  | lastIndex, [] =>
    if lastIndex < l.length then
      let remaining := jsTrim (l.drop lastIndex)
      if 0 < remaining.length then [⟨remaining, lastIndex, l.length⟩] else []
    else []
  | lastIndex, e :: es =>
    let s := jsTrim (jsSub l lastIndex e)
    (if 0 < s.length then [⟨s, lastIndex, e⟩] else []) ++ sentencesFromEnds l e es

/-- `TextChunker.splitIntoSentences`. -/
def splitIntoSentences (l : List Char) : List Sentence :=
  sentencesFromEnds l 0 (sentenceEnds l.length l 0)

/-- `TextChunk` of chunker.ts: offsets are JS numbers (the sentence path can
produce negative `startOffset`), hence `Int`. -/
structure TextChunk where
  text : List Char
  startOffset : Int
  endOffset : Int
  index : Nat
deriving DecidableEq, Repr

/-- `TextChunker.getOverlapText`: the comparison
`spaceIndex < overlapSize * 0.5` is the exact `2 * spaceIndex < overlapSize`. -/
def getOverlapText (text : List Char) (overlapSize : Nat) : List Char :=
  if text.length ≤ overlapSize then text
  else
    let overlapText := text.drop (text.length - overlapSize)
    let spaceIndex := idxOf overlapText ' '
    if 0 < spaceIndex && 2 * spaceIndex < (overlapSize : Int) then
      overlapText.drop (spaceIndex.toNat + 1)
    else overlapText

/-- Loop state of `TextChunker.chunkBySentences`. -/
structure SentAcc where
  chunks : List TextChunk
  currentChunk : List Char
  currentStart : Int
  chunkIndex : Nat

/-- One iteration of the sentence loop of `TextChunker.chunkBySentences`. -/
def sentStep (chunkSize chunkOverlap : Nat) (acc : SentAcc) (s : Sentence) : SentAcc :=
  let potential :=
    acc.currentChunk ++ (if acc.currentChunk.isEmpty then [] else [' ']) ++ s.text
  if potential.length ≤ chunkSize || acc.currentChunk.isEmpty then
    { acc with
      currentChunk := potential
      currentStart := if acc.currentChunk.isEmpty then (s.start : Int) else acc.currentStart }
  else
    let pushed :=
      if acc.currentChunk.isEmpty then (acc.chunks, acc.chunkIndex)
      else
        (acc.chunks ++ [⟨jsTrim acc.currentChunk, acc.currentStart,
          acc.currentStart + acc.currentChunk.length, acc.chunkIndex⟩],
         acc.chunkIndex + 1)
    let overlapText := getOverlapText acc.currentChunk chunkOverlap
    { chunks := pushed.1
      currentChunk := overlapText ++ (if overlapText.isEmpty then [] else [' ']) ++ s.text
      currentStart := (s.start : Int) - overlapText.length -
        (if overlapText.isEmpty then 0 else 1)
      chunkIndex := pushed.2 }

/-- `TextChunker.chunkBySentences`. -/
def chunkBySentences (chunkSize chunkOverlap : Nat) (l : List Char) : List TextChunk :=
  let acc := (splitIntoSentences l).foldl (sentStep chunkSize chunkOverlap) ⟨[], [], 0, 0⟩
  if 0 < (jsTrim acc.currentChunk).length then
    acc.chunks ++ [⟨jsTrim acc.currentChunk, acc.currentStart,
      acc.currentStart + acc.currentChunk.length, acc.chunkIndex⟩]
  else acc.chunks

/-- The window-text computation of one `chunkBySlidingWindow` iteration:
`end`, `chunkText` and the word-boundary break.  The comparison
`breakPoint > start + this.chunkSize * 0.7` is taken verbatim from the
source: `breakPoint` is an index into the current window while `start` is an
absolute position (modelled exactly, floats removed by cross-multiplying
with 10). -/
def slidingChunkText (cs : Nat) (text : List Char) (start : Nat) : List Char :=
  let e := min (start + cs) text.length
  let raw := (text.drop start).take (e - start)
  if e < text.length then
    let bp := max (lastIdxOf raw ' ') (lastIdxOf raw '\n')
    if 10 * bp > 10 * (start : Int) + 7 * (cs : Int) then raw.take bp.toNat else raw
  else raw

/-- The advance of one `chunkBySlidingWindow` iteration:
`start = Math.max(start + chunkText.length - chunkOverlap, start + 1)`. -/
def slidingNext (co : Nat) (start len : Nat) : Nat :=
  (max ((start : Int) + (len : Int) - (co : Int)) ((start : Int) + 1)).toNat

/-- The `while` loop of `TextChunker.chunkBySlidingWindow`.  The advance
increases `start` by at least one per iteration, so `fuel := text.length`
makes the fueled recursion equal to the loop. -/
def slidingLoop (cs co : Nat) (text : List Char) :
    Nat → Nat → Nat → List TextChunk
  | 0, _, _ => []
  | fuel + 1, start, idx =>
    if start < text.length then
      let chunkT := slidingChunkText cs text start
      let chunk : TextChunk := ⟨jsTrim chunkT, (start : Int), (start : Int) + chunkT.length, idx⟩
      let start' := slidingNext co start chunkT.length
      if text.length ≤ start' then [chunk]
      else chunk :: slidingLoop cs co text fuel start' (idx + 1)
    else []

/-- `TextChunker.chunkBySlidingWindow`. -/
def chunkBySlidingWindow (cs co : Nat) (l : List Char) : List TextChunk :=
  (slidingLoop cs co l l.length 0 0).filter (fun c => 0 < c.text.length)

/-- `TextChunker.isGoodChunking`: `len >= chunkSize * 0.3`,
`len <= chunkSize * 1.5` and `ratio >= 0.7` cross-multiplied exactly. -/
def isGoodChunking (cs : Nat) (chunks : List TextChunk) : Bool :=
  if chunks.isEmpty then false
  else
    let reasonablySized := chunks.filter
      (fun c => 3 * cs ≤ 10 * c.text.length && 2 * c.text.length ≤ 3 * cs)
    7 * chunks.length ≤ 10 * reasonablySized.length

/-- `TextChunker.chunkText`. -/
def chunkText (cs co : Nat) (l : List Char) : List TextChunk :=
  if (jsTrim l).isEmpty then []
  else
    let sentenceChunks := chunkBySentences cs co l
    if isGoodChunking cs sentenceChunks then sentenceChunks
    else chunkBySlidingWindow cs co l

/-- The concrete 2300-character failing input for the chunking example:
459 repetitions of `"abcd "` followed by `"abcde"`; it contains no
sentence-terminal punctuation, has whitespace word gaps, and starts and
ends with a letter. -/
def c5text : List Char := (List.replicate 459 "abcd ".toList).flatten ++ "abcde".toList

/-! ### Data model and store operations of db.ts (`DatabaseManager`) -/

/-- The `ingest_status` union of db.ts. -/
inductive IngStatus where
  | ok | skipped | needsOcr | tooLarge | error
deriving DecidableEq, Repr

/-- The `source` union of db.ts. -/
inductive DocSource where
  | file | url | raw
deriving DecidableEq, Repr

/-- A `documents` row (db.ts `Document`). -/
structure Document where
  doc_id : String
  external_id : String
  source : DocSource
  uri : String
  title : String
  content_type : String
  size_bytes : Nat
  content_sha256 : String
  mtime : String
  ingest_status : IngStatus
  notes : Option String
  created_at : String
  updated_at : String
deriving DecidableEq, Repr

/-- The `kind` union of a segment. -/
inductive SegKind where
  | page | section
deriving DecidableEq, Repr

/-- A `segments` row (db.ts `Segment`); `meta` is kept as its serialized
JSON string. -/
structure Segment where
  segment_id : String
  doc_id : String
  kind : SegKind
  page : Option Nat
  meta : Option String
  text : String
deriving DecidableEq, Repr

/-- A `vec_chunks` row (db.ts `VecChunk`); embedding vectors are rational. -/
structure VecChunk where
  chunk_id : String
  segment_id : String
  start_char : Int
  end_char : Int
  text : String
  embedding : List ℚ
deriving DecidableEq, Repr

/-- The relational store.  Each table is its list of rows in insertion
order (the source's `SELECT`s without `ORDER BY` return rows in rowid
order, and all inserts append). -/
structure DbState where
  documents : List Document
  segments : List Segment
  chunks : List VecChunk
deriving DecidableEq, Repr

/-- `DatabaseManager.getDocumentByExternalId` (`external_id` is UNIQUE, so
the first matching row is the only one). -/
def getDocumentByExternalId (s : DbState) (externalId : String) : Option Document :=
  s.documents.find? (fun d => d.external_id == externalId)

/-- `DatabaseManager.upsertDocument`: `INSERT OR REPLACE` removes any row
conflicting on the `doc_id` primary key or on the UNIQUE `external_id`,
then inserts the new row. -/
def upsertDocument (s : DbState) (d : Document) : DbState :=
  { s with documents :=
      s.documents.filter (fun x => x.doc_id ≠ d.doc_id ∧ x.external_id ≠ d.external_id) ++ [d] }

/-- The segment ids of a document's current segments (the subquery
`SELECT segment_id FROM segments WHERE doc_id = ?`). -/
def segIdsOf (s : DbState) (docId : String) : List String :=
  (s.segments.filter (fun g => g.doc_id = docId)).map (fun g => g.segment_id)

/-- `DatabaseManager.replaceDocumentSegments`: one transaction deleting the
chunks of all of the document's segments, deleting the segments, and
inserting the new segments. -/
def replaceDocumentSegments (s : DbState) (docId : String) (segs : List Segment) : DbState :=
  { documents := s.documents
    segments := s.segments.filter (fun g => g.doc_id ≠ docId) ++ segs
    chunks := s.chunks.filter (fun c => c.segment_id ∉ segIdsOf s docId) }

/-- A chunk record passed to `replaceSegmentChunks` (`chunk_id` is assigned
inside the transaction). -/
structure ChunkRecord where
  segment_id : String
  start_char : Int
  end_char : Int
  text : String
  embedding : List ℚ
deriving DecidableEq, Repr

/-- `DatabaseManager.replaceSegmentChunks`: one transaction deleting the
segment's chunks and inserting the new ones with ids
`${segmentId}_${i}` and the `segmentId` parameter as owner. -/
def replaceSegmentChunks (s : DbState) (segmentId : String) (cks : List ChunkRecord) : DbState :=
  { s with chunks :=
      s.chunks.filter (fun c => c.segment_id ≠ segmentId) ++
        cks.enum.map (fun p =>
          { chunk_id := segmentId ++ "_" ++ toString p.1
            segment_id := segmentId
            start_char := p.2.start_char
            end_char := p.2.end_char
            text := p.2.text
            embedding := p.2.embedding }) }

/-! ### Fallback similarity search (db.ts) and `IngestManager.search` -/

/-- `DatabaseManager.cosineSimilarity`.  `Math.sqrt` is floating-point and
is abstracted as the parameter `sqrtFn`; the search theorems hold for every
`sqrtFn`. -/
def cosineSimilarity (sqrtFn : ℚ → ℚ) (a b : List ℚ) : ℚ :=
  let dotProduct := ((a.zip b).map (fun p => p.1 * p.2)).sum
  let normA := (a.map (fun x => x * x)).sum
  let normB := (b.map (fun x => x * x)).sum
  dotProduct / (sqrtFn normA * sqrtFn normB)

/-- A row of `searchSimilar`'s result shape.  The cosmetic `source_badge`
string of the source (a display label built from title/content-type/page)
is not modelled; no claim concerns it. -/
structure SearchResult where
  chunk_id : String
  segment_id : String
  doc_id : String
  score : ℚ
  preview : String
  text : String
  title : Option String
deriving DecidableEq, Repr

/-- `text.substring(0, 240) + (text.length > 240 ? '...' : '')`. -/
def jsPreview (t : String) : String :=
  (t.toList.take 240).asString ++ (if 240 < t.length then "..." else "")

/-- The fallback `SELECT` of `searchSimilar`: `vec_chunks JOIN segments ON
segment_id LEFT JOIN documents ON doc_id`, optionally filtered by
`doc_ids`, rows in chunk insertion order.  `segment_id` and `doc_id` are
PRIMARY KEYs, so `find?` is the join. -/
def searchRows (s : DbState) (docIds : Option (List String)) :
    List (VecChunk × Segment × Option Document) :=
  let joined := s.chunks.filterMap (fun c =>
    (s.segments.find? (fun g => g.segment_id == c.segment_id)).map
      (fun g => (c, g, s.documents.find? (fun d => d.doc_id == g.doc_id))))
  match docIds with
  | some ids => if 0 < ids.length then joined.filter (fun r => r.2.1.doc_id ∈ ids) else joined
  | none => joined

/-- The per-row score-and-shape step of the fallback search. -/
def scoreRow (sqrtFn : ℚ → ℚ) (queryEmbedding : List ℚ)
    (r : VecChunk × Segment × Option Document) : SearchResult :=
  { chunk_id := r.1.chunk_id
    segment_id := r.1.segment_id
    doc_id := r.2.1.doc_id
    score := cosineSimilarity sqrtFn queryEmbedding r.1.embedding
    preview := jsPreview r.1.text
    text := r.1.text
    title := r.2.2.map (fun d => d.title) }

/-- `similarities.sort((a, b) => b.score - a.score)`: JavaScript's
`Array.prototype.sort` is required to be stable (ES2019) and a negative
comparator value puts `a` first, so the result is ordered by descending
score with ties kept in input order.  Modelled as the stable insertion
sort with `a` placed before `b` exactly when `b.score ≤ a.score`. -/
def jsSortByScoreDesc (l : List SearchResult) : List SearchResult :=
  List.insertionSort (fun a b => b.score ≤ a.score) l

/-- `DatabaseManager.searchSimilar`.  `initSchema` always sets
`useVectorTable = false` (see the `TODO` comment in the source: the `vec0`
virtual-table branch is dead code), so this is the in-memory fallback
path: load the joined rows, score with cosine similarity, sort descending,
take the first `topK`. -/
def searchSimilar (sqrtFn : ℚ → ℚ) (s : DbState) (queryEmbedding : List ℚ)
    (topK : Nat) (docIds : Option (List String)) : List SearchResult :=
  (jsSortByScoreDesc ((searchRows s docIds).map (scoreRow sqrtFn queryEmbedding))).take topK

/-- A match of `IngestManager.search`. -/
structure SearchMatch where
  chunk_id : String
  doc_id : String
  score : ℚ
  preview : String
  resource : String
deriving DecidableEq, Repr

/-- `IngestManager.search`: embed the query (`embed` abstracts
`EmbeddingManager.embedSingle`), delegate to `searchSimilar`, and format
each row with an `mcp+doc://` resource URI. -/
def search (sqrtFn : ℚ → ℚ) (embed : String → List ℚ) (s : DbState)
    (query : String) (topK : Nat) (docIds : Option (List String)) : List SearchMatch :=
  (searchSimilar sqrtFn s (embed query) topK docIds).map (fun r =>
    { chunk_id := r.chunk_id
      doc_id := r.doc_id
      score := r.score
      preview := r.preview
      resource := "mcp+doc://" ++ r.doc_id ++ "#" ++ r.chunk_id })

/-- The resource-address format stated by the specification:
`doc://<doc_id>#<chunk_id>`. -/
def specResource (docId chunkId : String) : String :=
  "doc://" ++ docId ++ "#" ++ chunkId

/-- The document of the concrete search stores used in closed statements. -/
def c6doc : Document :=
  { doc_id := "d1", external_id := "e1", source := DocSource.raw, uri := "raw://d1",
    title := "T", content_type := "text/plain", size_bytes := 5, content_sha256 := "h",
    mtime := "m", ingest_status := IngStatus.ok, notes := none, created_at := "t0",
    updated_at := "t0" }

/-- The single segment of the concrete search stores. -/
def c6seg : Segment :=
  { segment_id := "s1", doc_id := "d1", kind := SegKind.section, page := none,
    meta := none, text := "hello" }

/-- A one-document, one-segment, one-chunk store. -/
def c6db : DbState :=
  { documents := [c6doc]
    segments := [c6seg]
    chunks := [{ chunk_id := "s1_0", segment_id := "s1", start_char := 0, end_char := 5,
                 text := "hello", embedding := [1] }] }

/-- A store with three chunks, two of them with equal similarity to the
query `[1]`, for concrete top-K/tie statements. -/
def c7db : DbState :=
  { documents := c6db.documents
    segments := c6db.segments
    chunks :=
      [{ chunk_id := "s1_0", segment_id := "s1", start_char := 0,
         end_char := 2, text := "aa", embedding := [1] },
       { chunk_id := "s1_1", segment_id := "s1", start_char := 2,
         end_char := 4, text := "bb", embedding := [2] },
       { chunk_id := "s1_2", segment_id := "s1", start_char := 4,
         end_char := 6, text := "cc", embedding := [1] }] }

/-! ### IngestManager (ingest.ts) -/

/-- An `IngestDocument` of ingest.ts.  Optional strings are checked with
JavaScript truthiness (`undefined` and `""` are both falsy).  The
`metadata` field is never read by `processBatch` and is omitted. -/
structure IngestDocument where
  text : Option String
  segments : Option (List Segment)
  external_id : Option String
  title : Option String
  source : Option DocSource
  uri : Option String
  content_type : Option String
  size_bytes : Option Nat
  mtime : Option String
  ingest_status : Option IngStatus
  notes : Option String
deriving DecidableEq, Repr

/-- The `status` of an `IngestResult`. -/
inductive ResultStatus where
  | inserted | updated | skipped
deriving DecidableEq, Repr

/-- An `IngestResult` of ingest.ts. -/
structure IngestResult where
  doc_id : String
  chunks : Nat
  status : ResultStatus
  external_id : Option String
deriving DecidableEq, Repr

/-- JavaScript `a || b` for an optional string `a`: `a` unless it is
absent or empty. -/
def jsOrStr (a : Option String) (b : String) : String :=
  match a with
  | some s => if s = "" then b else s
  | none => b

/-- JavaScript truthiness of an optional string. -/
def truthyStr (a : Option String) : Option String :=
  match a with
  | some s => if s = "" then none else some s
  | none => none

/-- The configuration and ambient effects of `IngestManager`, abstracted:
`hash` is sha256 (hex digest; the code uses only that it is a function),
`embed` is `EmbeddingManager.embedSingle` (`embedBatch` maps it over all
chunk texts in order, and the positional remapping assigns each chunk the
embedding of its own text), `now` is `new Date().toISOString()`, `nonce`
the `Date.now().toString(36)` timestamp used in ids of documents without
an `external_id`, and `chunkSize`/`chunkOverlap` configure the chunker. -/
structure IngestCfg where
  hash : String → String
  embed : String → List ℚ
  chunkSize : Nat
  chunkOverlap : Nat
  now : String
  nonce : String

/-- The hashed content:
`doc.text || (doc.segments ? doc.segments.map(s => s.text).join('\n') : '')`. -/
def contentForHash (doc : IngestDocument) : String :=
  match truthyStr doc.text with
  | some t => t
  | none =>
    match doc.segments with
    | some segs => String.intercalate "\n" (segs.map (fun g => g.text))
    | none => ""

/-- `IngestManager.generateDocId`. -/
def generateDocId (cfg : IngestCfg) (doc : IngestDocument) : String :=
  match truthyStr doc.external_id with
  | some e => "doc_" ++ (cfg.hash e).take 16
  | none => "doc_" ++ (cfg.hash (contentForHash doc)).take 12 ++ "_" ++ cfg.nonce

/-- The per-request resolution of the first loop of `processBatch`. -/
inductive PrepStatus where
  | insert | update | skip
deriving DecidableEq, Repr

/-- One element of `docsToProcess`. -/
structure PrepItem where
  doc : IngestDocument
  docId : String
  contentHash : String
  status : PrepStatus
  existingDoc : Option Document
deriving DecidableEq, Repr

/-- The first loop of `processBatch`: hash the content, resolve identity
against the store by `external_id`, and decide insert/update/skip. -/
def prepareDoc (cfg : IngestCfg) (s : DbState) (skipIfUnchanged : Bool)
    (doc : IngestDocument) : PrepItem :=
  let contentHash := cfg.hash (contentForHash doc)
  let docId := generateDocId cfg doc
  let existingDoc :=
    match truthyStr doc.external_id with
    | some e => getDocumentByExternalId s e
    | none => none
  let status :=
    match existingDoc with
    | some d =>
      if skipIfUnchanged && (d.content_sha256 = contentHash) then PrepStatus.skip
      else PrepStatus.update
    | none => PrepStatus.insert
  { doc := doc
    docId := jsOrStr (existingDoc.map (fun d => d.doc_id)) docId
    contentHash := contentHash
    status := status
    existingDoc := existingDoc }

/-- `docsToProcess` of `processBatch`. -/
def docsToProcess (cfg : IngestCfg) (s : DbState) (skipIfUnchanged : Bool)
    (docs : List IngestDocument) : List PrepItem :=
  docs.map (prepareDoc cfg s skipIfUnchanged)

/-- `activeProcessing`: the non-skipped items. -/
def activeItems (cfg : IngestCfg) (s : DbState) (skipIfUnchanged : Bool)
    (docs : List IngestDocument) : List PrepItem :=
  (docsToProcess cfg s skipIfUnchanged docs).filter (fun it => it.status ≠ PrepStatus.skip)

/-- The skipped results, pushed before any stored document's result, with
`chunks: 0` (the source comment: `We don't count existing chunks for
skipped docs`). -/
def skippedResults (items : List PrepItem) : List IngestResult :=
  (items.filter (fun it => it.status = PrepStatus.skip)).map (fun it =>
    { doc_id := it.docId, chunks := 0, status := ResultStatus.skipped,
      external_id := it.doc.external_id })

/-- One entry of `allDocData`: the built segments and their chunkings. -/
structure DocData where
  docId : String
  segments : List Segment
  segmentChunks : List (String × List TextChunk)
  doc : IngestDocument
  status : PrepStatus
deriving DecidableEq, Repr

/-- The segment-building and chunking loop of `processBatch`: pre-built
segments get the resolved `doc_id` spliced in, raw text becomes one
synthetic `${docId}_text` section, and requests with neither (truthy)
`text` nor `segments` are dropped with a console warning, producing no
entry and hence no result.  The source keeps dropped requests in
`activeProcessing`, so `allDocData[i]` and `activeProcessing[i]` can
refer to different requests in the store loop below. -/
def buildDocData (cfg : IngestCfg) (items : List PrepItem) : List DocData :=
  items.filterMap (fun item =>
    let segs : Option (List Segment) :=
      match item.doc.segments with
      | some segs => some (segs.map (fun g => { g with doc_id := item.docId }))
      | none =>
        match truthyStr item.doc.text with
        | some t => some [{ segment_id := item.docId ++ "_text", doc_id := item.docId,
                            kind := SegKind.section, page := none, meta := none, text := t }]
        | none => none
    segs.map (fun segments =>
      { docId := item.docId
        segments := segments
        segmentChunks := segments.map (fun g =>
          (g.segment_id, chunkText cfg.chunkSize cfg.chunkOverlap g.text.toList))
        doc := item.doc
        status := item.status }))

/-- The chunk records stored for one segment: offsets and text from the
chunker, embedding of the chunk's own text (see `IngestCfg.embed`). -/
def chunkRecordsOf (cfg : IngestCfg) (segmentId : String) (chunks : List TextChunk) :
    List ChunkRecord :=
  chunks.map (fun c =>
    { segment_id := segmentId
      start_char := c.startOffset
      end_char := c.endOffset
      text := c.text.asString
      embedding := cfg.embed c.text.asString })

/-- The document row built in the store loop of `processBatch`.  Note
`content_sha256 := item.contentHash` where `item` is
`activeProcessing[i]`, which is a different request than `dd` whenever an
earlier request was dropped for having no content. -/
def docRecordOf (cfg : IngestCfg) (item : PrepItem) (dd : DocData) : Document :=
  { doc_id := dd.docId
    external_id := jsOrStr dd.doc.external_id dd.docId
    source := dd.doc.source.getD DocSource.raw
    uri := jsOrStr dd.doc.uri ("raw://" ++ dd.docId)
    title := jsOrStr dd.doc.title "Untitled"
    content_type := jsOrStr dd.doc.content_type "text/plain"
    size_bytes := dd.doc.size_bytes.getD 0
    content_sha256 := item.contentHash
    mtime := jsOrStr dd.doc.mtime cfg.now
    ingest_status := dd.doc.ingest_status.getD IngStatus.ok
    notes := dd.doc.notes
    created_at := cfg.now
    updated_at := cfg.now }

/-- The store states after each `replaceSegmentChunks` transaction of one
document's store step. -/
def chunkStates (cfg : IngestCfg) : DbState → List (String × List TextChunk) → List DbState
  | _, [] => []
  | s, (sid, cks) :: rest =>
    let s' := replaceSegmentChunks s sid (chunkRecordsOf cfg sid cks)
    s' :: chunkStates cfg s' rest

/-- The observable store states of one document's store step in
`processBatch`, one entry per committed transaction: after
`upsertDocument`, after `replaceDocumentSegments`, then after each
per-segment `replaceSegmentChunks`. -/
def storeDocStates (cfg : IngestCfg) (item : PrepItem) (dd : DocData) (s : DbState) :
    List DbState :=
  let s1 := upsertDocument s (docRecordOf cfg item dd)
  let s2 := replaceDocumentSegments s1 dd.docId dd.segments
  s1 :: s2 :: chunkStates cfg s2 dd.segmentChunks

/-- The final state of one document's store step. -/
def storeDoc (cfg : IngestCfg) (item : PrepItem) (dd : DocData) (s : DbState) : DbState :=
  dd.segmentChunks.foldl
    (fun st p => replaceSegmentChunks st p.1 (chunkRecordsOf cfg p.1 p.2))
    (replaceDocumentSegments (upsertDocument s (docRecordOf cfg item dd)) dd.docId dd.segments)

/-- `totalChunks` of one stored document. -/
def totalChunksOf (dd : DocData) : Nat :=
  (dd.segmentChunks.map (fun p => p.2.length)).sum

/-- The pairing the store loop actually uses: it iterates `i` over
`allDocData` but reads `contentHash` from `activeProcessing[i]`; `zip`
reproduces exactly that index-wise pairing (truncated at
`allDocData.length`). -/
def storePlan (cfg : IngestCfg) (s : DbState) (skipIfUnchanged : Bool)
    (docs : List IngestDocument) : List (DocData × PrepItem) :=
  (buildDocData cfg (activeItems cfg s skipIfUnchanged docs)).zip
    (activeItems cfg s skipIfUnchanged docs)

/-- The store loop of `processBatch`.  `storeFail docId = true` models any
`better-sqlite3` exception while persisting that document; the source
logs and rethrows (`throw error`), so the error propagates out of
`processBatch` and the loop never continues past a failure. -/
def storeLoop (cfg : IngestCfg) (storeFail : String → Bool) :
    DbState → List IngestResult → List (DocData × PrepItem) →
      Except String (List IngestResult × DbState)
  | s, results, [] => Except.ok (results, s)
  | s, results, (dd, item) :: rest =>
    if storeFail dd.docId then Except.error ("Failed to store document " ++ dd.docId)
    else
      storeLoop cfg storeFail (storeDoc cfg item dd s)
        (results ++ [{ doc_id := dd.docId
                       chunks := totalChunksOf dd
                       status := if dd.status = PrepStatus.insert then ResultStatus.inserted
                                 else ResultStatus.updated
                       external_id := dd.doc.external_id }]) rest

/-- `IngestManager.processBatch`. -/
def processBatch (cfg : IngestCfg) (storeFail : String → Bool) (s : DbState)
    (docs : List IngestDocument) (skipIfUnchanged : Bool) :
    Except String (List IngestResult × DbState) :=
  let items := docsToProcess cfg s skipIfUnchanged docs
  if (activeItems cfg s skipIfUnchanged docs).isEmpty then
    Except.ok (skippedResults items, s)
  else
    storeLoop cfg storeFail s (skippedResults items) (storePlan cfg s skipIfUnchanged docs)

/-- The `for (let i = 0; i < docs.length; i += batchSize)` slicing of
`ingestBatch`; `fuel` (the number of documents) makes the recursion
structural, and suffices for any `batchSize ≥ 1` (the default is 10). -/
def sliceBatches (batchSize : Nat) : Nat → List IngestDocument → List (List IngestDocument)
  | 0, _ => []
  | _, [] => []
  | fuel + 1, d :: ds => (d :: ds).take batchSize :: sliceBatches batchSize fuel ((d :: ds).drop batchSize)

/-- The batch loop of `ingestBatch`, accumulating results and threading
the store; a `processBatch` rejection propagates. -/
def ingestLoop (cfg : IngestCfg) (storeFail : String → Bool) (skipIfUnchanged : Bool) :
    DbState → List IngestResult → List (List IngestDocument) →
      Except String (List IngestResult × DbState)
  | s, acc, [] => Except.ok (acc, s)
  | s, acc, b :: bs =>
    match processBatch cfg storeFail s b skipIfUnchanged with
    | Except.error e => Except.error e
    | Except.ok (rs, s') => ingestLoop cfg storeFail skipIfUnchanged s' (acc ++ rs) bs

/-- `IngestManager.ingestBatch`. -/
def ingestBatch (cfg : IngestCfg) (storeFail : String → Bool) (s : DbState)
    (docs : List IngestDocument) (skipIfUnchanged : Bool) (batchSize : Nat) :
    Except String (List IngestResult × DbState) :=
  if docs.isEmpty then Except.ok ([], s)
  else ingestLoop cfg storeFail skipIfUnchanged s []
    (sliceBatches batchSize docs.length docs)

/-! ### FileWatcher debounce (watcher.ts) -/

/-- Single-path debounce semantics of `FileWatcher.handleFileEvent`: every
raw event on a supported path clears the path's pending `setTimeout` (if
any) and starts a new one `debounceMs` later; a timer that no later event
clears fires, removes itself from the timer map and dispatches exactly one
`processFileEvent`.  Given the sorted arrival times of the events on one
path, this computes the dispatch times: `t + debounceMs` for exactly those
events `t` that no following event interrupts strictly inside the
window. -/
def debounceDispatches (debounceMs : Nat) : List Nat → List Nat
  | [] => []
  | [t] => [t + debounceMs]
  | t :: t' :: ts =>
    if t' < t + debounceMs then debounceDispatches debounceMs (t' :: ts)
    else (t + debounceMs) :: debounceDispatches debounceMs (t' :: ts)

/-! ### Concrete stores and requests for the ingest claims -/

/-- A configuration with transparent hash (`sha256` abstracted as the
identity on the tiny concrete inputs) and an empty embedding vector. -/
def cfgW : IngestCfg :=
  { hash := fun s => s, embed := fun _ => [], chunkSize := 1000, chunkOverlap := 120,
    now := "t1", nonce := "n" }

/-- A second configuration with the same hash function but a different
clock, for second calls. -/
def cfgW2 : IngestCfg :=
  { hash := fun s => s, embed := fun _ => [], chunkSize := 1000, chunkOverlap := 120,
    now := "t2", nonce := "n2" }

/-- No store failures. -/
def sfOk : String → Bool := fun _ => false

/-- The previously stored version of document `d1` for the C1 trace: one
old segment with one old chunk. -/
def c1db : DbState :=
  { documents := [{ doc_id := "d1", external_id := "e1", source := DocSource.raw,
                    uri := "raw://d1", title := "T", content_type := "text/plain",
                    size_bytes := 3, content_sha256 := "old", mtime := "m",
                    ingest_status := IngStatus.ok, notes := none, created_at := "t0",
                    updated_at := "t0" }]
    segments := [{ segment_id := "d1_text", doc_id := "d1", kind := SegKind.section,
                   page := none, meta := none, text := "old" }]
    chunks := [{ chunk_id := "d1_text_0", segment_id := "d1_text", start_char := 0,
                 end_char := 3, text := "old", embedding := [] }] }

/-- The re-ingestion request for `d1` with changed content. -/
def c1req : IngestDocument :=
  { text := some "fresh text", segments := none, external_id := some "e1", title := none,
    source := none, uri := none, content_type := none, size_bytes := none, mtime := none,
    ingest_status := none, notes := none }

/-- The prepared item of the C1 re-ingestion. -/
def c1item : PrepItem := prepareDoc cfgW c1db true c1req

/-- The built doc data of the C1 re-ingestion. -/
def c1dd : DocData :=
  (buildDocData cfgW [c1item]).getD 0
    { docId := "", segments := [], segmentChunks := [], doc := c1req,
      status := PrepStatus.insert }

/-- The observable store states of the C1 re-ingestion. -/
def c1states : List DbState := storeDocStates cfgW c1item c1dd c1db

/-- Requests for the C2 counterexample: two documents, the first of which
fails to persist. -/
def c2reqA : IngestDocument :=
  { text := some "alpha", segments := none, external_id := some "x", title := none,
    source := none, uri := none, content_type := none, size_bytes := none, mtime := none,
    ingest_status := none, notes := none }

def c2reqB : IngestDocument :=
  { text := some "beta", segments := none, external_id := some "y", title := none,
    source := none, uri := none, content_type := none, size_bytes := none, mtime := none,
    ingest_status := none, notes := none }

/-- Failure injected exactly for the first C2 document's id
(`generateDocId` with identity hash gives `doc_x`). -/
def c2fail : String → Bool := fun d => d = "doc_x"

/-- The empty store. -/
def emptyDb : DbState := { documents := [], segments := [], chunks := [] }

/-- A store whose document `d1` already holds content hash `"HI"` (the
identity hash of the request text) together with three stored chunks, for
the C3/C10 skip statements. -/
def c3db : DbState :=
  { documents := [{ doc_id := "d1", external_id := "e1", source := DocSource.raw,
                    uri := "raw://d1", title := "T", content_type := "text/plain",
                    size_bytes := 2, content_sha256 := "HI", mtime := "m",
                    ingest_status := IngStatus.ok, notes := none, created_at := "t0",
                    updated_at := "t0" }]
    segments := [{ segment_id := "d1_text", doc_id := "d1", kind := SegKind.section,
                   page := none, meta := none, text := "HI" }]
    chunks := [{ chunk_id := "d1_text_0", segment_id := "d1_text", start_char := 0,
                 end_char := 1, text := "H", embedding := [] },
               { chunk_id := "d1_text_1", segment_id := "d1_text", start_char := 1,
                 end_char := 2, text := "I", embedding := [] },
               { chunk_id := "d1_text_2", segment_id := "d1_text", start_char := 0,
                 end_char := 2, text := "HI", embedding := [] }] }

/-- The re-ingestion request whose content hash matches what `c3db`
stores. -/
def c3req : IngestDocument :=
  { text := some "HI", segments := none, external_id := some "e1", title := none,
    source := none, uri := none, content_type := none, size_bytes := none, mtime := none,
    ingest_status := none, notes := none }

/-- A request with neither text nor segments. -/
def c9req : IngestDocument :=
  { text := none, segments := none, external_id := some "e9", title := none,
    source := none, uri := none, content_type := none, size_bytes := none, mtime := none,
    ingest_status := none, notes := none }

/-- A store whose document matches `c9req`'s `external_id` with the hash
of the empty content, so the no-content request resolves as skipped. -/
def c9skipDb : DbState :=
  { documents := [{ doc_id := "d9", external_id := "e9", source := DocSource.raw,
                    uri := "raw://d9", title := "T", content_type := "text/plain",
                    size_bytes := 0, content_sha256 := "", mtime := "m",
                    ingest_status := IngStatus.ok, notes := none, created_at := "t0",
                    updated_at := "t0" }]
    segments := []
    chunks := [] }

/-! ### Facts about `jsTrim` and the sliding-window loop -/

theorem dropWhile_eq_self_of_head {p : Char → Bool} {l : List Char}
    (h : ∀ c, l.head? = some c → p c = false) : l.dropWhile p = l := by
  cases l with
  | nil => rfl
  | cons a l => simp [List.dropWhile_cons, h a rfl]

theorem jsTrim_eq_self {l : List Char}
    (h0 : ∀ c, l.head? = some c → isJsWs c = false)
    (h1 : ∀ c, l.getLast? = some c → isJsWs c = false) : jsTrim l = l := by
  unfold jsTrim
  rw [dropWhile_eq_self_of_head h0]
  rw [dropWhile_eq_self_of_head (fun c hc => h1 c (by rwa [List.head?_reverse] at hc)),
    List.reverse_reverse]

theorem jsTrim_ne_nil {l : List Char} {c : Char} (hc : c ∈ l) (hw : isJsWs c = false) :
    jsTrim l ≠ [] := by
  intro h
  unfold jsTrim at h
  rw [List.reverse_eq_nil_iff, List.dropWhile_eq_nil_iff] at h
  have hcd : c ∈ l.dropWhile isJsWs := by
    have hsplit := List.takeWhile_append_dropWhile (p := isJsWs) (l := l)
    rcases List.mem_append.mp (hsplit ▸ hc) with h1 | h1
    · exact absurd (List.mem_takeWhile_imp h1) (by simp [hw])
    · exact h1
  have := h c (List.mem_reverse.mpr hcd)
  simp [hw] at this

theorem slidingChunkText_of_tail {t : List Char} {start : Nat}
    (h : t.length ≤ start + 1000) : slidingChunkText 1000 t start = t.drop start := by
  unfold slidingChunkText
  rw [min_eq_right h]
  simp [List.take_of_length_le, List.length_drop]

theorem slidingChunkText_length_le (cs : Nat) (t : List Char) (start : Nat) :
    (slidingChunkText cs t start).length ≤ t.length - start := by
  have hraw : ∀ k j, (((t.drop start).take k).take j).length ≤ t.length - start := by
    intro k j
    simp only [List.length_take, List.length_drop]
    omega
  have hraw' : ∀ k, ((t.drop start).take k).length ≤ t.length - start := by
    intro k
    simp only [List.length_take, List.length_drop]
    omega
  show (let e := min (start + cs) t.length
    let raw := (t.drop start).take (e - start)
    if e < t.length then
      let bp := max (lastIdxOf raw ' ') (lastIdxOf raw '\n')
      if 10 * bp > 10 * (start : Int) + 7 * (cs : Int) then raw.take bp.toNat else raw
    else raw).length ≤ t.length - start
  by_cases h1 : min (start + cs) t.length < t.length
  · simp only [if_pos h1]
    by_cases h2 : 10 * max (lastIdxOf ((t.drop start).take (min (start + cs) t.length - start)) ' ')
        (lastIdxOf ((t.drop start).take (min (start + cs) t.length - start)) '\n') >
        10 * (start : Int) + 7 * (cs : Int)
    · simp only [if_pos h2]
      exact hraw _ _
    · simp only [if_neg h2]
      exact hraw' _
  · simp only [if_neg h1]
    exact hraw' _

/-- One unfolding of the sliding-window loop. -/
theorem slidingLoop_succ (cs co : Nat) (t : List Char) (fuel start idx : Nat) :
    slidingLoop cs co t (fuel + 1) start idx =
      if start < t.length then
        if t.length ≤ slidingNext co start (slidingChunkText cs t start).length then
          [⟨jsTrim (slidingChunkText cs t start), (start : Int),
            (start : Int) + (slidingChunkText cs t start).length, idx⟩]
        else
          ⟨jsTrim (slidingChunkText cs t start), (start : Int),
            (start : Int) + (slidingChunkText cs t start).length, idx⟩ ::
            slidingLoop cs co t fuel
              (slidingNext co start (slidingChunkText cs t start).length) (idx + 1)
      else [] := rfl

theorem slidingNext_eq (co start len : Nat) :
    slidingNext co start len = max (start + len - co) (start + 1) := by
  unfold slidingNext
  rcases le_total ((start : Int) + (len : Int) - (co : Int)) ((start : Int) + 1) with h | h
  · rw [max_eq_right h, Nat.max_eq_right (by omega)]
    omega
  · rw [max_eq_left h, Nat.max_eq_left (by omega)]
    omega

/-- The element at index `len - 1` stays in every proper suffix. -/
theorem last_mem_drop {t : List Char} {s : Nat} (h : s < t.length) :
    t.getD (t.length - 1) 'a' ∈ t.drop s := by
  have hidx : t.length - 1 - s < (t.drop s).length := by
    rw [List.length_drop]; omega
  have h1 : t.length - 1 < t.length := by omega
  have : (t.drop s)[t.length - 1 - s] = t[t.length - 1] := by
    rw [List.getElem_drop]
    congr 1
    omega
  rw [List.getD_eq_getElem?_getD, List.getElem?_eq_getElem h1]
  exact this ▸ List.getElem_mem hidx

/-- In the tail region `[2180, 2300)` the sliding-window loop of the chunker
(with `chunkSize = 1000`, `chunkOverlap = 120`, on a 2300-character text with
a non-whitespace final character) advances by exactly one character per
iteration, emitting one nonempty chunk per position. -/
theorem slidingLoop_creep {t : List Char} (ht : t.length = 2300)
    (hlast : isJsWs (t.getD 2299 'a') = false) :
    ∀ fuel start idx, 2180 ≤ start → start < 2300 → 2300 - start ≤ fuel →
      ((slidingLoop 1000 120 t fuel start idx).filter (fun c => 0 < c.text.length)).length
        = 2300 - start := by
  intro fuel
  induction fuel with
  | zero => intro start idx h1 h2 h3; omega
  | succ fuel ih =>
    intro start idx h1 h2 h3
    have hlt : start < t.length := by omega
    have hct : slidingChunkText 1000 t start = t.drop start :=
      slidingChunkText_of_tail (by omega)
    have hlen : (slidingChunkText 1000 t start).length = 2300 - start := by
      rw [hct, List.length_drop, ht]
    have hnext : slidingNext 120 start (slidingChunkText 1000 t start).length = start + 1 := by
      rw [hlen, slidingNext_eq]
      have h4 : start + (2300 - start) - 120 = 2180 := by omega
      rw [h4, Nat.max_eq_right (by omega)]
    have hmem : t.getD 2299 'a' ∈ t.drop start := by
      have hmem' := last_mem_drop (t := t) (s := start) (by omega)
      rwa [ht] at hmem'
    have htrim : jsTrim (slidingChunkText 1000 t start) ≠ [] := by
      rw [hct]
      exact jsTrim_ne_nil hmem hlast
    have hpos : 0 < (jsTrim (slidingChunkText 1000 t start)).length :=
      List.length_pos.mpr htrim
    rw [slidingLoop_succ, if_pos hlt, hnext]
    by_cases hend : t.length ≤ start + 1
    · rw [if_pos hend]
      have hst : start = 2299 := by omega
      subst hst
      simp [List.filter_cons, hpos]
    · rw [if_neg hend]
      rw [List.filter_cons, if_pos (by simpa using hpos)]
      rw [List.length_cons, ih (start + 1) (idx + 1) (by omega) (by omega) (by omega)]
      omega

/-- Before position 2180, every iteration of the sliding-window loop keeps
the next start position at or below 2180, so the loop always reaches the
tail region and therefore always emits at least 120 chunks. -/
theorem slidingLoop_ge_120 {t : List Char} (ht : t.length = 2300)
    (hlast : isJsWs (t.getD 2299 'a') = false) :
    ∀ fuel start idx, start ≤ 2180 → 2300 - start ≤ fuel →
      120 ≤ ((slidingLoop 1000 120 t fuel start idx).filter
        (fun c => 0 < c.text.length)).length := by
  intro fuel
  induction fuel with
  | zero => intro start idx h1 h2; omega
  | succ fuel ih =>
    intro start idx h1 h2
    by_cases hc : start = 2180
    · subst hc
      rw [slidingLoop_creep ht hlast (fuel + 1) 2180 idx (by omega) (by omega) (by omega)]
    · have h1' : start < 2180 := by omega
      have hlt : start < t.length := by omega
      have hlenle : (slidingChunkText 1000 t start).length ≤ 2300 - start := by
        have := slidingChunkText_length_le 1000 t start
        omega
      have hnext : slidingNext 120 start (slidingChunkText 1000 t start).length ≤ 2180 := by
        rw [slidingNext_eq]
        exact max_le (by omega) (by omega)
      have hnext' : start + 1 ≤ slidingNext 120 start (slidingChunkText 1000 t start).length := by
        rw [slidingNext_eq]
        exact le_max_right _ _
      rw [slidingLoop_succ, if_pos hlt, if_neg (by omega)]
      rw [List.filter_cons]
      have hrest := ih (slidingNext 120 start (slidingChunkText 1000 t start).length)
        (idx + 1) hnext (by omega)
      split
      · rw [List.length_cons]; omega
      · exact hrest

/-- On punctuation-free text the sentence regex never matches. -/
theorem sentenceEnds_eq_nil :
    ∀ fuel (l : List Char) pos, (∀ c ∈ l, isPunct c = false) →
      sentenceEnds fuel l pos = [] := by
  intro fuel
  induction fuel with
  | zero => intro l pos _; rfl
  | succ fuel ih =>
    intro l pos h
    cases l with
    | nil => rfl
    | cons c l' =>
      rw [sentenceEnds]
      rw [if_neg (by simp [h c (by simp)])]
      exact ih l' (pos + 1) (fun d hd => h d (by simp [hd]))

theorem sentencesFromEnds_nil (l : List Char) (lastIndex : Nat) :
    sentencesFromEnds l lastIndex [] =
      if lastIndex < l.length then
        (if 0 < (jsTrim (l.drop lastIndex)).length
          then [⟨jsTrim (l.drop lastIndex), lastIndex, l.length⟩] else [])
      else [] := rfl

theorem splitIntoSentences_no_punct {t : List Char} (hp : ∀ c ∈ t, isPunct c = false)
    (hne : t ≠ []) (htrim : jsTrim t = t) :
    splitIntoSentences t = [⟨t, 0, t.length⟩] := by
  unfold splitIntoSentences
  rw [sentenceEnds_eq_nil t.length t 0 hp]
  have hpos : 0 < t.length := List.length_pos.mpr hne
  rw [sentencesFromEnds_nil, if_pos hpos]
  simp only [List.drop_zero, htrim]
  rw [if_pos hpos]

theorem chunkBySentences_single {t : List Char} (cs co : Nat)
    (hp : ∀ c ∈ t, isPunct c = false) (hne : t ≠ []) (htrim : jsTrim t = t) :
    chunkBySentences cs co t = [⟨t, 0, (t.length : Int), 0⟩] := by
  unfold chunkBySentences
  rw [splitIntoSentences_no_punct hp hne htrim]
  have hstep : (sentStep cs co ⟨[], [], 0, 0⟩ ⟨t, 0, t.length⟩) = ⟨[], t, 0, 0⟩ := by
    unfold sentStep
    simp
  rw [List.foldl_cons, List.foldl_nil, hstep]
  simp only [htrim]
  rw [if_pos (List.length_pos.mpr hne)]
  simp

theorem isGoodChunking_single_long {cs : Nat} {c : TextChunk}
    (h : 3 * cs < 2 * c.text.length) : isGoodChunking cs [c] = false := by
  unfold isGoodChunking
  rw [if_neg (by simp)]
  have hfilter : [c].filter
      (fun c => 3 * cs ≤ 10 * c.text.length && 2 * c.text.length ≤ 3 * cs) = [] := by
    rw [List.filter_cons]
    simp only [List.filter_nil]
    rw [if_neg (by simp; omega)]
  rw [hfilter]
  simp

/-- C5 (supporting theorem for a code bug): on any 2300-character text with
no sentence-terminal punctuation and non-whitespace first and last
characters, `chunkText` with `chunkSize = 1000`, `chunkOverlap = 120` does
fall back to sliding-window chunking, but the window loop then emits at
least 120 chunks (one per tail position from 2180 on) instead of the three
the specification promises: the advance
`start = Math.max(start + chunkText.length - chunkOverlap, start + 1)` can
never move `start` past `text.length - chunkOverlap`, so the loop creeps
one character at a time through the final 120 positions. -/
theorem c5_sliding_fallback_explodes {t : List Char} (ht : t.length = 2300)
    (hp : ∀ c ∈ t, isPunct c = false)
    (hfirst : isJsWs (t.getD 0 'a') = false)
    (hlast : isJsWs (t.getD 2299 'a') = false) :
    chunkText 1000 120 t = chunkBySlidingWindow 1000 120 t ∧
      120 ≤ (chunkText 1000 120 t).length := by
  have hne : t ≠ [] := by
    intro h
    rw [h] at ht
    simp at ht
  have hhead : ∀ c, t.head? = some c → isJsWs c = false := by
    intro c hc
    cases t with
    | nil => simp at hc
    | cons a l =>
      simp only [List.head?_cons, Option.some.injEq] at hc
      rw [← hc]
      simpa using hfirst
  have hlastmem : ∀ c, t.getLast? = some c → isJsWs c = false := by
    intro c hc
    rw [List.getLast?_eq_getElem?, ht] at hc
    have hd : t.getD 2299 'a' = c := by
      rw [List.getD_eq_getElem?_getD, hc]
      rfl
    rw [← hd]
    exact hlast
  have htrim : jsTrim t = t := jsTrim_eq_self hhead hlastmem
  have hsent := chunkBySentences_single 1000 120 hp hne htrim
  have hgood : isGoodChunking 1000 (chunkBySentences 1000 120 t) = false := by
    rw [hsent]
    apply isGoodChunking_single_long
    simp [ht]
  have hmain : chunkText 1000 120 t = chunkBySlidingWindow 1000 120 t := by
    unfold chunkText
    rw [htrim, if_neg (by simp [hne])]
    simp only [hgood]
    simp
  refine ⟨hmain, ?_⟩
  rw [hmain]
  unfold chunkBySlidingWindow
  rw [ht]
  exact slidingLoop_ge_120 ht hlast 2300 0 0 (by omega) (by omega)

set_option maxRecDepth 40000 in
theorem c5_sliding_fallback_explodes_witness :
    c5text.length = 2300 ∧ 120 ≤ (chunkText 1000 120 c5text).length := by
  have h5 : ("abcd ".toList).length = 5 := rfl
  have h1 : c5text.length = 2300 := by
    rw [c5text, List.length_append, List.length_flatten, List.map_replicate, h5,
      List.sum_replicate]
    rfl
  have hp : ∀ c ∈ c5text, isPunct c = false := by
    intro c hc
    rw [c5text, List.mem_append, List.mem_flatten] at hc
    rcases hc with ⟨l, hl, hcl⟩ | hc
    · rw [List.mem_replicate] at hl
      rw [hl.2] at hcl
      fin_cases hcl <;> rfl
    · fin_cases hc <;> rfl
  have hfirst : isJsWs (c5text.getD 0 'a') = false := by rfl
  have hlast : isJsWs (c5text.getD 2299 'a') = false := by decide
  exact ⟨h1, (c5_sliding_fallback_explodes h1 hp hfirst hlast).2⟩

/-- C4 (supporting theorem for a code bug): the 5-character input
`"hello"` (shorter than `chunkSize = 1000`) produces five chunks, not one:
its single sentence chunk is shorter than `0.3 × chunkSize`, so
`isGoodChunking` rejects the sentence chunking, and the sliding-window
fallback then creeps one character at a time.  Empty and whitespace-only
inputs do produce the empty chunk list. -/
theorem c4_short_text_not_single_chunk :
    (chunkText 1000 120 "hello".toList).length = 5 ∧
    (chunkText 1000 120 "hello".toList).map (fun c => c.text) =
      ["hello".toList, "ello".toList, "llo".toList, "lo".toList, "o".toList] ∧
    chunkText 1000 120 [] = [] ∧
    chunkText 1000 120 " \n  ".toList = [] := by
  refine ⟨by decide, by decide, rfl, by decide⟩

/-! ### Search: resource format (C6) and top-K ordering (C7) -/

/-- C6 (amended): every match returned by `IngestManager.search` carries a
resource string of the form `mcp+doc://<doc_id>#<chunk_id>` built from the
match's own document and chunk identifiers. -/
theorem c6_search_resource_format (sqrtFn : ℚ → ℚ) (embed : String → List ℚ)
    (s : DbState) (query : String) (topK : Nat) (docIds : Option (List String)) :
    ∀ m ∈ search sqrtFn embed s query topK docIds,
      m.resource = "mcp+doc://" ++ m.doc_id ++ "#" ++ m.chunk_id := by
  intro m hm
  unfold search at hm
  rcases List.mem_map.mp hm with ⟨r, _, rfl⟩
  rfl

theorem c6_search_resource_format_witness :
    ∃ m ∈ search (fun x => x) (fun _ => [(1 : ℚ)]) c6db "q" 8 none,
      m.resource = "mcp+doc://" ++ m.doc_id ++ "#" ++ m.chunk_id := by
  have hsearch : search (fun x => x) (fun _ => [(1 : ℚ)]) c6db "q" 8 none =
      [{ chunk_id := "s1_0", doc_id := "d1",
         score := cosineSimilarity (fun x => x) [(1 : ℚ)] [(1 : ℚ)], preview := "hello",
         resource := "mcp+doc://d1#s1_0" }] := rfl
  have hm : ({ chunk_id := "s1_0", doc_id := "d1",
               score := cosineSimilarity (fun x => x) [(1 : ℚ)] [(1 : ℚ)],
               preview := "hello",
               resource := "mcp+doc://d1#s1_0" } : SearchMatch)
      ∈ search (fun x => x) (fun _ => [(1 : ℚ)]) c6db "q" 8 none := by
    rw [hsearch]
    exact List.mem_singleton.mpr rfl
  exact ⟨_, hm, c6_search_resource_format _ _ _ _ _ _ _ hm⟩

/-- C6 counterexample: at a concrete one-chunk store the search result's
resource string is `mcp+doc://d1#s1_0`, which is not the
`doc://<doc_id>#<chunk_id>` form stated by the claim. -/
theorem c6_resource_not_doc_scheme :
    (search (fun x => x) (fun _ => [(1 : ℚ)]) c6db "q" 8 none).map (fun m => m.resource) =
      ["mcp+doc://d1#s1_0"] ∧
    (search (fun x => x) (fun _ => [(1 : ℚ)]) c6db "q" 8 none).map
      (fun m => specResource m.doc_id m.chunk_id) = ["doc://d1#s1_0"] ∧
    "mcp+doc://d1#s1_0" ≠ "doc://d1#s1_0" := by decide

theorem filter_orderedInsert_score_eq {x : SearchResult} {q : ℚ} (hx : x.score = q) :
    ∀ m : List SearchResult,
      (List.orderedInsert (fun a b => b.score ≤ a.score) x m).filter (fun r => r.score = q) =
        x :: m.filter (fun r => r.score = q)
  | [] => by simp [List.orderedInsert, hx]
  | b :: l => by
    rw [List.orderedInsert]
    by_cases h : b.score ≤ x.score
    · rw [if_pos h]
      simp [List.filter_cons, hx]
    · rw [if_neg h]
      have hb : ¬(b.score = q) := fun hq => h (le_of_eq (hq.trans hx.symm))
      simp only [List.filter_cons, hb, decide_False, Bool.false_eq_true, if_false]
      exact filter_orderedInsert_score_eq hx l

theorem filter_orderedInsert_score_ne {x : SearchResult} {q : ℚ} (hx : ¬(x.score = q)) :
    ∀ m : List SearchResult,
      (List.orderedInsert (fun a b => b.score ≤ a.score) x m).filter (fun r => r.score = q) =
        m.filter (fun r => r.score = q)
  | [] => by simp [List.orderedInsert, hx]
  | b :: l => by
    rw [List.orderedInsert]
    by_cases h : b.score ≤ x.score
    · rw [if_pos h]
      simp [List.filter_cons, hx]
    · rw [if_neg h]
      simp only [List.filter_cons]
      rw [filter_orderedInsert_score_ne hx l]

/-- Stability of the modelled JavaScript sort on the underlying insertion
sort: the subsequence of results with any fixed score value is exactly the
input subsequence, in input order. -/
theorem filter_insertionSort_score (q : ℚ) (l : List SearchResult) :
    (List.insertionSort (fun a b => b.score ≤ a.score) l).filter (fun r => r.score = q) =
      l.filter (fun r => r.score = q) := by
  induction l with
  | nil => rfl
  | cons x xs ih =>
    show (List.orderedInsert (fun a b => b.score ≤ a.score) x
        (List.insertionSort (fun a b => b.score ≤ a.score) xs)).filter
          (fun r => r.score = q) = (x :: xs).filter (fun r => r.score = q)
    by_cases hx : x.score = q
    · rw [filter_orderedInsert_score_eq hx, ih, List.filter_cons, if_pos (by simpa using hx)]
    · rw [filter_orderedInsert_score_ne hx, ih, List.filter_cons, if_neg (by simpa using hx)]

theorem filter_jsSortByScoreDesc (l : List SearchResult) (q : ℚ) :
    (jsSortByScoreDesc l).filter (fun r => r.score = q) = l.filter (fun r => r.score = q) :=
  filter_insertionSort_score q l

/-- C7: the fallback search returns `min topK candidates` results, ordered
by descending score; the results with any fixed score are a prefix of the
input rows with that score (ties broken by insertion order, stable sort);
and when no more than `topK` candidates exist, every candidate's score
class is returned whole. -/
theorem c7_searchSimilar_topk_order (sqrtFn : ℚ → ℚ) (s : DbState) (qe : List ℚ)
    (topK : Nat) (docIds : Option (List String)) :
    (searchSimilar sqrtFn s qe topK docIds).length = min topK (searchRows s docIds).length ∧
    (searchSimilar sqrtFn s qe topK docIds).Pairwise (fun a b => b.score ≤ a.score) ∧
    (∀ q : ℚ, ∃ rest,
      ((searchRows s docIds).map (scoreRow sqrtFn qe)).filter (fun r => r.score = q) =
        (searchSimilar sqrtFn s qe topK docIds).filter (fun r => r.score = q) ++ rest) ∧
    ((searchRows s docIds).length ≤ topK →
      ∀ q : ℚ, (searchSimilar sqrtFn s qe topK docIds).filter (fun r => r.score = q) =
        ((searchRows s docIds).map (scoreRow sqrtFn qe)).filter (fun r => r.score = q)) := by
  haveI hTot : IsTotal SearchResult (fun a b => b.score ≤ a.score) :=
    ⟨fun a b => le_total b.score a.score⟩
  haveI hTrans : IsTrans SearchResult (fun a b => b.score ≤ a.score) :=
    ⟨fun _ _ _ hab hbc => le_trans hbc hab⟩
  have hsortlen : (jsSortByScoreDesc ((searchRows s docIds).map (scoreRow sqrtFn qe))).length
      = (searchRows s docIds).length := by
    rw [jsSortByScoreDesc, List.length_insertionSort, List.length_map]
  refine ⟨?_, ?_, ?_, ?_⟩
  · rw [searchSimilar, List.length_take, hsortlen]
  · have hsorted : (jsSortByScoreDesc ((searchRows s docIds).map
        (scoreRow sqrtFn qe))).Pairwise (fun a b => b.score ≤ a.score) :=
      List.sorted_insertionSort _ _
    exact hsorted.sublist (List.take_sublist _ _)
  · intro q
    refine ⟨((jsSortByScoreDesc ((searchRows s docIds).map
      (scoreRow sqrtFn qe))).drop topK).filter (fun r => r.score = q), ?_⟩
    unfold searchSimilar
    rw [← List.filter_append, List.take_append_drop, filter_jsSortByScoreDesc]
  · intro hle q
    have htake : (jsSortByScoreDesc ((searchRows s docIds).map
        (scoreRow sqrtFn qe))).take topK
        = jsSortByScoreDesc ((searchRows s docIds).map (scoreRow sqrtFn qe)) :=
      List.take_of_length_le (by rw [hsortlen]; exact hle)
    rw [searchSimilar, htake, filter_jsSortByScoreDesc]

/-! ### Watcher debounce (C8) -/

theorem debounce_mem (D : Nat) :
    ∀ ts : List Nat, ∀ d ∈ debounceDispatches D ts, ∃ t ∈ ts, d = t + D
  | [] => by simp [debounceDispatches]
  | [t] => by simp [debounceDispatches]
  | t :: t' :: ts => by
    intro d hd
    rw [debounceDispatches] at hd
    by_cases h : t' < t + D
    · rw [if_pos h] at hd
      obtain ⟨u, hu, hud⟩ := debounce_mem D (t' :: ts) d hd
      exact ⟨u, List.mem_cons_of_mem t hu, hud⟩
    · rw [if_neg h] at hd
      rcases List.mem_cons.mp hd with hd | hd
      · exact ⟨t, List.mem_cons_self t _, hd⟩
      · obtain ⟨u, hu, hud⟩ := debounce_mem D (t' :: ts) d hd
        exact ⟨u, List.mem_cons_of_mem t hu, hud⟩

theorem debounce_burst (D : Nat) :
    ∀ ts : List Nat, ts ≠ [] → ts.Chain' (fun a b => b < a + D) →
      debounceDispatches D ts = [ts.getLast?.getD 0 + D]
  | [], h, _ => absurd rfl h
  | [t], _, _ => by simp [debounceDispatches]
  | t :: t' :: ts, _, hc => by
    rw [debounceDispatches, if_pos (List.chain'_cons.mp hc).1]
    rw [debounce_burst D (t' :: ts) (by simp) (List.chain'_cons.mp hc).2]
    rw [List.getLast?_cons_cons]

/-- C8: a dispatch to ingestion happens only at the debounce expiry of
some raw event, and any nonempty burst of events on one path whose
consecutive gaps are strictly inside the debounce window results in
exactly one dispatch, at the last event's expiry.  (Each event's
restart-the-timer behaviour is the definition of `debounceDispatches`,
modelled from `FileWatcher.handleFileEvent`.) -/
theorem c8_debounce_coalesces (D : Nat) (ts : List Nat) :
    (∀ d ∈ debounceDispatches D ts, ∃ t ∈ ts, d = t + D) ∧
    (ts ≠ [] → ts.Chain' (fun a b => b < a + D) →
      debounceDispatches D ts = [ts.getLast?.getD 0 + D]) :=
  ⟨debounce_mem D ts, debounce_burst D ts⟩

theorem c8_debounce_coalesces_witness :
    debounceDispatches 600 [0, 100, 200] = [800] := by
  have h := (c8_debounce_coalesces 600 [0, 100, 200]).2 (by decide)
    (by norm_num [List.chain'_cons])
  simpa using h

/-! ### Ingest pipeline: skipped results (C10), no-content requests (C9),
store failures (C2) -/

theorem storeLoop_results (cfg : IngestCfg) (sf : String → Bool) :
    ∀ (pairs : List (DocData × PrepItem)) (s : DbState) (acc res : List IngestResult)
      (s' : DbState), storeLoop cfg sf s acc pairs = Except.ok (res, s') →
      ∃ extra, res = acc ++ extra ∧ ∀ r ∈ extra, r.status ≠ ResultStatus.skipped
  | [], s, acc, res, s' => by
    intro h
    rw [storeLoop] at h
    injection h with h
    injection h with h1 h2
    exact ⟨[], by simp [h1.symm], by simp⟩
  | (dd, item) :: rest, s, acc, res, s' => by
    intro h
    rw [storeLoop] at h
    by_cases hf : sf dd.docId
    · rw [if_pos hf] at h
      exact absurd h (by simp)
    · rw [if_neg hf] at h
      obtain ⟨extra, hres, hextra⟩ := storeLoop_results cfg sf rest _ _ res s' h
      refine ⟨_ :: extra, by simpa using hres, ?_⟩
      intro r hr
      rcases List.mem_cons.mp hr with hr | hr
      · subst hr
        split <;> simp
      · exact hextra r hr

theorem skippedResults_mem (items : List PrepItem) :
    ∀ r ∈ skippedResults items, r.status = ResultStatus.skipped ∧ r.chunks = 0 := by
  intro r hr
  unfold skippedResults at hr
  rcases List.mem_map.mp hr with ⟨it, _, rfl⟩
  exact ⟨rfl, rfl⟩

/-- C10: every skipped entry of a `processBatch` result reports zero
chunks, whatever the store holds for that document (the store `s` and its
chunk rows are arbitrary here; the source pushes the literal `chunks: 0`
for skipped documents). -/
theorem c10_skipped_reports_zero_chunks (cfg : IngestCfg) (sf : String → Bool)
    (s : DbState) (docs : List IngestDocument) (sk : Bool)
    (res : List IngestResult) (s' : DbState)
    (h : processBatch cfg sf s docs sk = Except.ok (res, s')) :
    ∀ r ∈ res, r.status = ResultStatus.skipped → r.chunks = 0 := by
  unfold processBatch at h
  split at h
  · injection h with h
    injection h with h1 h2
    intro r hr _
    exact (skippedResults_mem _ r (h1 ▸ hr)).2
  · obtain ⟨extra, hres, hextra⟩ := storeLoop_results cfg sf _ _ _ _ _ h
    intro r hr hst
    rw [hres] at hr
    rcases List.mem_append.mp hr with hr | hr
    · exact (skippedResults_mem _ r hr).2
    · exact absurd hst (hextra r hr)

theorem c10_skipped_reports_zero_chunks_witness :
    0 < c3db.chunks.length ∧
    ({ doc_id := "d1", chunks := 0, status := ResultStatus.skipped,
       external_id := some "e1" } : IngestResult).chunks = 0 :=
  ⟨by decide,
   c10_skipped_reports_zero_chunks cfgW sfOk c3db [c3req] true _ _ rfl _
     (List.mem_singleton.mpr rfl) rfl⟩

/-- C9 counterexample: a request with neither text nor segments whose
`external_id` matches a stored document with the empty-content hash is
resolved as skipped, and the result array does contain an entry for it. -/
theorem c9_no_content_entry_counterexample :
    processBatch cfgW sfOk c9skipDb [c9req] true =
      Except.ok ([{ doc_id := "d9", chunks := 0, status := ResultStatus.skipped,
                    external_id := some "e9" }], c9skipDb) := rfl

/-- C9 (amended): a request with neither (truthy) text nor segments that
is not resolved as skipped by the unchanged-hash check yields no
validation error, no write, and no entry in the result array (so the
output can be shorter than the input); and in every `processBatch`
result, skipped entries precede all non-skipped entries. -/
theorem c9_no_content_requests (cfg : IngestCfg) (sf : String → Bool) (s : DbState)
    (sk : Bool) (doc : IngestDocument)
    (hseg : doc.segments = none) (htxt : truthyStr doc.text = none)
    (hns : (prepareDoc cfg s sk doc).status ≠ PrepStatus.skip) :
    processBatch cfg sf s [doc] sk = Except.ok ([], s) ∧
    (∀ docs res s', processBatch cfg sf s docs sk = Except.ok (res, s') →
      ∃ a b, res = a ++ b ∧ (∀ r ∈ a, r.status = ResultStatus.skipped) ∧
        (∀ r ∈ b, r.status ≠ ResultStatus.skipped)) := by
  constructor
  · have hactive : activeItems cfg s sk [doc] = [prepareDoc cfg s sk doc] := by
      unfold activeItems docsToProcess
      simp [hns]
    have hplan : storePlan cfg s sk [doc] = [] := by
      unfold storePlan buildDocData
      rw [hactive]
      simp [show (prepareDoc cfg s sk doc).doc = doc from rfl, hseg, htxt]
    have hskip : skippedResults (docsToProcess cfg s sk [doc]) = [] := by
      unfold skippedResults docsToProcess
      simp [hns]
    unfold processBatch
    rw [hplan]
    split
    · rename_i hemp
      rw [hactive] at hemp
      simp at hemp
    · show storeLoop cfg sf s (skippedResults (docsToProcess cfg s sk [doc])) [] =
        Except.ok ([], s)
      rw [hskip, storeLoop]
  · intro docs res s' h
    unfold processBatch at h
    split at h
    · injection h with h
      injection h with h1 _
      refine ⟨res, [], by simp, ?_, by simp⟩
      intro r hr
      exact (skippedResults_mem _ r (h1 ▸ hr)).1
    · obtain ⟨extra, hres, hextra⟩ := storeLoop_results cfg sf _ _ _ _ _ h
      exact ⟨_, extra, hres, fun r hr => (skippedResults_mem _ r hr).1, hextra⟩

theorem c9_no_content_requests_witness :
    processBatch cfgW sfOk emptyDb [c9req] true = Except.ok ([], emptyDb) :=
  (c9_no_content_requests cfgW sfOk emptyDb true c9req rfl rfl (by decide)).1

theorem storeLoop_error_of_fail (cfg : IngestCfg) (sf : String → Bool) :
    ∀ (pairs : List (DocData × PrepItem)) (s : DbState) (acc : List IngestResult),
      (∃ p ∈ pairs, sf p.1.docId = true) →
      ∃ msg, storeLoop cfg sf s acc pairs = Except.error msg
  | [], s, acc => by simp
  | (dd, item) :: rest, s, acc => by
    rintro ⟨p, hp, hfail⟩
    rw [storeLoop]
    by_cases hf : sf dd.docId
    · rw [if_pos hf]
      exact ⟨_, rfl⟩
    · rw [if_neg hf]
      rcases List.mem_cons.mp hp with hp | hp
      · subst hp
        exact absurd hfail (by simp [hf])
      · exact storeLoop_error_of_fail cfg sf rest _ _ ⟨p, hp, hfail⟩

theorem sliceBatches_single (bs : Nat) (docs : List IngestDocument)
    (hne : docs ≠ []) (hlen : docs.length ≤ bs) :
    sliceBatches bs docs.length docs = [docs] := by
  cases docs with
  | nil => exact absurd rfl hne
  | cons d ds =>
    rw [List.length_cons, sliceBatches]
    rw [List.take_of_length_le hlen, List.drop_eq_nil_of_le hlen]
    cases hds : ds.length with
    | zero => rw [sliceBatches]
    | succ n =>
      rw [sliceBatches]
      omega

/-- C2 (amended): a persistence failure while storing any document of the
batch makes the whole call throw: `processBatch` (and `ingestBatch`, here
for a batch within one `batchSize` slice) rejects with an error and
returns no per-document results at all — neither for documents already
stored, nor for skipped ones, nor for the remaining documents. -/
theorem c2_store_failure_aborts (cfg : IngestCfg) (sf : String → Bool) (s : DbState)
    (docs : List IngestDocument) (sk : Bool)
    (h : ∃ p ∈ storePlan cfg s sk docs, sf p.1.docId = true) :
    (∃ msg, processBatch cfg sf s docs sk = Except.error msg) ∧
    (∀ bs, docs ≠ [] → docs.length ≤ bs →
      ∃ msg, ingestBatch cfg sf s docs sk bs = Except.error msg) := by
  have hpb : ∃ msg, processBatch cfg sf s docs sk = Except.error msg := by
    obtain ⟨p, hp, hfail⟩ := h
    have hactive : ¬(activeItems cfg s sk docs).isEmpty := by
      intro hemp
      have h2 : p.2 ∈ activeItems cfg s sk docs := (List.of_mem_zip (by
        unfold storePlan at hp
        exact (Prod.mk.eta (p := p)) ▸ hp)).2
      rw [List.isEmpty_iff] at hemp
      rw [hemp] at h2
      simp at h2
    unfold processBatch
    rw [if_neg hactive]
    exact storeLoop_error_of_fail cfg sf _ _ _ ⟨p, hp, hfail⟩
  refine ⟨hpb, ?_⟩
  intro bs hne hlen
  obtain ⟨msg, hmsg⟩ := hpb
  refine ⟨msg, ?_⟩
  unfold ingestBatch
  rw [if_neg (by simpa using hne)]
  rw [sliceBatches_single bs docs hne hlen]
  rw [ingestLoop, hmsg]

/-- C2 counterexample: with two documents in one batch and a persistence
failure on the first, the whole call rejects — no result is returned for
the second document (nor any other). -/
theorem c2_batch_not_isolated_counterexample :
    processBatch cfgW c2fail emptyDb [c2reqA, c2reqB] true =
      Except.error "Failed to store document doc_x" ∧
    ingestBatch cfgW c2fail emptyDb [c2reqA, c2reqB] true 10 =
      Except.error "Failed to store document doc_x" := ⟨rfl, rfl⟩

theorem c2_store_failure_aborts_witness :
    ∃ msg, ingestBatch cfgW c2fail emptyDb [c2reqA, c2reqB] true 10 = Except.error msg :=
  (c2_store_failure_aborts cfgW c2fail emptyDb [c2reqA, c2reqB] true
    (by decide)).2 10 (by decide) (by decide)

/-! ### Replace-on-change transaction granularity (C1) -/

theorem chunkStates_segments (cfg : IngestCfg) :
    ∀ (scs : List (String × List TextChunk)) (s : DbState),
      ∀ st ∈ chunkStates cfg s scs, st.segments = s.segments
  | [], s => by simp [chunkStates]
  | (sid, cks) :: rest, s => by
    intro st hst
    rw [chunkStates] at hst
    rcases List.mem_cons.mp hst with h | h
    · subst h
      rfl
    · exact chunkStates_segments cfg rest (replaceSegmentChunks s sid (chunkRecordsOf cfg sid cks)) st h

theorem filter_doc_of_replace (old : List Segment) (docId : String) (segs : List Segment)
    (hdoc : ∀ g ∈ segs, g.doc_id = docId) :
    (old.filter (fun g => g.doc_id ≠ docId) ++ segs).filter (fun g => g.doc_id = docId)
      = segs := by
  rw [List.filter_append]
  have h1 : (old.filter (fun g => g.doc_id ≠ docId)).filter (fun g => g.doc_id = docId)
      = [] := by
    rw [List.filter_filter]
    apply List.filter_eq_nil_iff.mpr
    intro g _
    by_cases h : g.doc_id = docId <;> simp [h]
  have h2 : segs.filter (fun g => g.doc_id = docId) = segs := by
    apply List.filter_eq_self.mpr
    intro g hg
    simpa using hdoc g hg
  rw [h1, h2, List.nil_append]

/-- C1 (amended): each transaction of the store step is atomic, but the
document's replacement spans several transactions.  In every observable
state the document's segment set is either exactly the old set or exactly
the new set (never a mix); the first transaction (the document upsert)
touches neither segments nor chunks; the segment-replacement transaction
deletes all of the document's old chunks in the same transaction that
installs the new segments, and leaves the new segments with no chunks —
the chunks arrive only in the later per-segment transactions. -/
theorem c1_replace_not_one_transaction (cfg : IngestCfg) (item : PrepItem)
    (dd : DocData) (s₀ : DbState)
    (hdoc : ∀ g ∈ dd.segments, g.doc_id = dd.docId)
    (hfresh : ∀ c ∈ s₀.chunks, c.segment_id ∈ dd.segments.map (fun g => g.segment_id) →
      c.segment_id ∈ segIdsOf s₀ dd.docId) :
    (∀ st ∈ storeDocStates cfg item dd s₀,
      st.segments.filter (fun g => g.doc_id = dd.docId) =
          s₀.segments.filter (fun g => g.doc_id = dd.docId) ∨
        st.segments.filter (fun g => g.doc_id = dd.docId) = dd.segments) ∧
    ((storeDocStates cfg item dd s₀).getD 0 emptyDb).segments = s₀.segments ∧
    ((storeDocStates cfg item dd s₀).getD 0 emptyDb).chunks = s₀.chunks ∧
    ((storeDocStates cfg item dd s₀).getD 1 emptyDb).chunks =
      s₀.chunks.filter (fun c => c.segment_id ∉ segIdsOf s₀ dd.docId) ∧
    ((storeDocStates cfg item dd s₀).getD 1 emptyDb).chunks.filter
      (fun c => c.segment_id ∈ dd.segments.map (fun g => g.segment_id)) = [] := by
  refine ⟨?_, rfl, rfl, rfl, ?_⟩
  · intro st hst
    rw [storeDocStates] at hst
    rcases List.mem_cons.mp hst with h | h
    · subst h
      exact Or.inl rfl
    rcases List.mem_cons.mp h with h | h
    · subst h
      exact Or.inr (filter_doc_of_replace s₀.segments dd.docId dd.segments hdoc)
    · have hseg := chunkStates_segments cfg dd.segmentChunks _ st h
      rw [hseg]
      exact Or.inr (filter_doc_of_replace s₀.segments dd.docId dd.segments hdoc)
  · show (s₀.chunks.filter (fun c => c.segment_id ∉ segIdsOf s₀ dd.docId)).filter
      (fun c => c.segment_id ∈ dd.segments.map (fun g => g.segment_id)) = []
    rw [List.filter_filter]
    apply List.filter_eq_nil_iff.mpr
    intro c hc
    by_cases hmem : c.segment_id ∈ dd.segments.map (fun g => g.segment_id)
    · have hin := hfresh c hc hmem
      simp [hin]
    · simp [hmem]

/-- C1 counterexample: re-ingesting document `d1` with changed content
passes through an observable state (after the segment-replacement
transaction, before any chunk transaction) in which the new segment
exists, its chunks are planned and nonempty, but no chunk for it has been
written; the chunks appear only in the following state. -/
theorem c1_not_one_transaction_counterexample :
    ((c1states.getD 1 emptyDb).segments.filter (fun g => g.doc_id = "d1")).map
        (fun g => (g.segment_id, g.text)) = [("d1_text", "fresh text")] ∧
    (c1states.getD 1 emptyDb).chunks.filter (fun c => c.segment_id = "d1_text") = [] ∧
    0 < totalChunksOf c1dd ∧
    (c1states.getD 2 emptyDb).chunks.filter (fun c => c.segment_id = "d1_text") ≠ [] := by
  refine ⟨by decide, by decide, by decide, by decide⟩

theorem c1_replace_not_one_transaction_witness :
    ((storeDocStates cfgW c1item c1dd c1db).getD 1 emptyDb).chunks =
      c1db.chunks.filter (fun c => c.segment_id ∉ segIdsOf c1db c1dd.docId) ∧
    ((storeDocStates cfgW c1item c1dd c1db).getD 1 emptyDb).chunks.filter
      (fun c => c.segment_id ∈ c1dd.segments.map (fun g => g.segment_id)) = [] :=
  ⟨(c1_replace_not_one_transaction cfgW c1item c1dd c1db (by decide)
      (by decide)).2.2.2.1,
   (c1_replace_not_one_transaction cfgW c1item c1dd c1db (by decide)
      (by decide)).2.2.2.2⟩

/-! ### Idempotent re-ingestion (C3) -/

theorem truthyStr_some_elim {a : Option String} {e : String} (h : truthyStr a = some e) :
    a = some e ∧ e ≠ "" := by
  cases a with
  | none => simp [truthyStr] at h
  | some s =>
    by_cases hs : s = ""
    · simp [truthyStr, hs] at h
    · simp only [truthyStr, if_neg hs, Option.some.injEq] at h
      subst h
      exact ⟨rfl, hs⟩

theorem prepareDoc_status (cfg : IngestCfg) (s : DbState) (sk : Bool)
    (doc : IngestDocument) :
    (prepareDoc cfg s sk doc).status =
      (match (match truthyStr doc.external_id with
              | some e => getDocumentByExternalId s e
              | none => none) with
       | some d =>
         if sk && (d.content_sha256 = cfg.hash (contentForHash doc)) then PrepStatus.skip
         else PrepStatus.update
       | none => PrepStatus.insert) := rfl

theorem prepareDoc_status_of_ext (cfg : IngestCfg) (s : DbState) (sk : Bool)
    (doc : IngestDocument) (e : String) (he : truthyStr doc.external_id = some e) :
    (prepareDoc cfg s sk doc).status =
      (match getDocumentByExternalId s e with
       | some d =>
         if sk && (d.content_sha256 = cfg.hash (contentForHash doc)) then PrepStatus.skip
         else PrepStatus.update
       | none => PrepStatus.insert) := by
  rw [prepareDoc_status, he]

theorem prepareDoc_status_skip_elim (cfg : IngestCfg) (s : DbState) (doc : IngestDocument)
    (e : String) (he : truthyStr doc.external_id = some e)
    (h : (prepareDoc cfg s true doc).status = PrepStatus.skip) :
    ∃ d, getDocumentByExternalId s e = some d ∧
      d.content_sha256 = cfg.hash (contentForHash doc) := by
  rw [prepareDoc_status_of_ext cfg s true doc e he] at h
  cases hex : getDocumentByExternalId s e with
  | none => rw [hex] at h; simp at h
  | some d =>
    rw [hex] at h
    simp only [Bool.true_and] at h
    by_cases hc : d.content_sha256 = cfg.hash (contentForHash doc)
    · exact ⟨d, rfl, hc⟩
    · rw [if_neg (by simp [hc])] at h
      simp at h

theorem prepareDoc_status_skip_intro (cfg : IngestCfg) (s : DbState) (doc : IngestDocument)
    (e : String) (d : Document) (he : truthyStr doc.external_id = some e)
    (hlook : getDocumentByExternalId s e = some d)
    (hh : d.content_sha256 = cfg.hash (contentForHash doc)) :
    (prepareDoc cfg s true doc).status = PrepStatus.skip := by
  rw [prepareDoc_status_of_ext cfg s true doc e he, hlook]
  simp [hh]

theorem processBatch_skip (cfg : IngestCfg) (sf : String → Bool) (s : DbState)
    (doc : IngestDocument) (sk : Bool)
    (h : (prepareDoc cfg s sk doc).status = PrepStatus.skip) :
    processBatch cfg sf s [doc] sk =
      Except.ok ([{ doc_id := (prepareDoc cfg s sk doc).docId, chunks := 0,
                    status := ResultStatus.skipped, external_id := doc.external_id }], s) := by
  have hactive : activeItems cfg s sk [doc] = [] := by
    unfold activeItems docsToProcess
    simp [h]
  show (if (activeItems cfg s sk [doc]).isEmpty then
      Except.ok (skippedResults (docsToProcess cfg s sk [doc]), s)
    else storeLoop cfg sf s (skippedResults (docsToProcess cfg s sk [doc]))
      (storePlan cfg s sk [doc])) = _
  rw [hactive]
  show Except.ok (skippedResults (docsToProcess cfg s sk [doc]), s) = _
  unfold skippedResults docsToProcess
  simp [h, show (prepareDoc cfg s sk doc).doc = doc from rfl]

theorem activeItems_one (cfg : IngestCfg) (s : DbState) (doc : IngestDocument) (sk : Bool)
    (hns : (prepareDoc cfg s sk doc).status ≠ PrepStatus.skip) :
    activeItems cfg s sk [doc] = [prepareDoc cfg s sk doc] := by
  unfold activeItems docsToProcess
  simp [hns]

theorem processBatch_store_one (cfg : IngestCfg) (sf : String → Bool) (s : DbState)
    (doc : IngestDocument) (sk : Bool) (dd : DocData)
    (hns : (prepareDoc cfg s sk doc).status ≠ PrepStatus.skip)
    (hdd : buildDocData cfg [prepareDoc cfg s sk doc] = [dd])
    (hsf : sf dd.docId = false) :
    processBatch cfg sf s [doc] sk =
      Except.ok ([{ doc_id := dd.docId, chunks := totalChunksOf dd,
                    status := if dd.status = PrepStatus.insert then ResultStatus.inserted
                              else ResultStatus.updated,
                    external_id := dd.doc.external_id }],
        storeDoc cfg (prepareDoc cfg s sk doc) dd s) := by
  have hactive := activeItems_one cfg s doc sk hns
  have hplan : storePlan cfg s sk [doc] = [(dd, prepareDoc cfg s sk doc)] := by
    unfold storePlan
    rw [hactive, hdd]
    rfl
  have hskip : skippedResults (docsToProcess cfg s sk [doc]) = [] := by
    unfold skippedResults docsToProcess
    simp [hns]
  show (if (activeItems cfg s sk [doc]).isEmpty then
      Except.ok (skippedResults (docsToProcess cfg s sk [doc]), s)
    else storeLoop cfg sf s (skippedResults (docsToProcess cfg s sk [doc]))
      (storePlan cfg s sk [doc])) = _
  rw [if_neg (by rw [hactive]; simp)]
  rw [hskip, hplan, storeLoop, if_neg (by simp [hsf]), storeLoop]
  simp

theorem processBatch_store_fail_one (cfg : IngestCfg) (sf : String → Bool) (s : DbState)
    (doc : IngestDocument) (sk : Bool) (dd : DocData)
    (hns : (prepareDoc cfg s sk doc).status ≠ PrepStatus.skip)
    (hdd : buildDocData cfg [prepareDoc cfg s sk doc] = [dd])
    (hsf : sf dd.docId = true) :
    processBatch cfg sf s [doc] sk =
      Except.error ("Failed to store document " ++ dd.docId) := by
  have hactive := activeItems_one cfg s doc sk hns
  have hplan : storePlan cfg s sk [doc] = [(dd, prepareDoc cfg s sk doc)] := by
    unfold storePlan
    rw [hactive, hdd]
    rfl
  show (if (activeItems cfg s sk [doc]).isEmpty then
      Except.ok (skippedResults (docsToProcess cfg s sk [doc]), s)
    else storeLoop cfg sf s (skippedResults (docsToProcess cfg s sk [doc]))
      (storePlan cfg s sk [doc])) = _
  rw [if_neg (by rw [hactive]; simp)]
  rw [hplan, storeLoop, if_pos hsf]

theorem buildDocData_singleton (cfg : IngestCfg) (item : PrepItem)
    (hcontent : item.doc.segments.isSome ∨ (truthyStr item.doc.text).isSome) :
    ∃ dd, buildDocData cfg [item] = [dd] ∧ dd.docId = item.docId ∧
      dd.doc = item.doc ∧ dd.status = item.status := by
  unfold buildDocData
  simp only [List.filterMap_cons, List.filterMap_nil]
  cases hseg : item.doc.segments with
  | some segs =>
    simp only [hseg]
    exact ⟨_, rfl, rfl, rfl, rfl⟩
  | none =>
    cases htxt : truthyStr item.doc.text with
    | some t =>
      simp only [hseg, htxt]
      exact ⟨_, rfl, rfl, rfl, rfl⟩
    | none =>
      rcases hcontent with hc | hc
      · rw [hseg] at hc
        simp at hc
      · rw [htxt] at hc
        simp at hc

theorem foldl_chunks_documents (cfg : IngestCfg) :
    ∀ (pairs : List (String × List TextChunk)) (st : DbState),
      (pairs.foldl (fun st p => replaceSegmentChunks st p.1 (chunkRecordsOf cfg p.1 p.2))
        st).documents = st.documents
  | [], st => rfl
  | p :: rest, st => by
    rw [List.foldl_cons]
    exact foldl_chunks_documents cfg rest _

theorem storeDoc_documents (cfg : IngestCfg) (item : PrepItem) (dd : DocData)
    (s : DbState) :
    (storeDoc cfg item dd s).documents =
      (upsertDocument s (docRecordOf cfg item dd)).documents := by
  unfold storeDoc
  rw [foldl_chunks_documents]
  rfl

theorem getDoc_upsert (s : DbState) (rec : Document) :
    getDocumentByExternalId (upsertDocument s rec) rec.external_id = some rec := by
  unfold getDocumentByExternalId upsertDocument
  rw [List.find?_append]
  have h1 : (s.documents.filter
      (fun x => x.doc_id ≠ rec.doc_id ∧ x.external_id ≠ rec.external_id)).find?
      (fun d => d.external_id == rec.external_id) = none := by
    rw [List.find?_eq_none]
    intro x hx
    have h2 := (List.mem_filter.mp hx).2
    simp only [decide_eq_true_eq] at h2
    simp [h2.2]
  rw [h1]
  simp [List.find?]

theorem ingestBatch_singleton (cfg : IngestCfg) (sf : String → Bool) (s : DbState)
    (doc : IngestDocument) (sk : Bool) :
    ingestBatch cfg sf s [doc] sk 10 = processBatch cfg sf s [doc] sk := by
  unfold ingestBatch
  rw [if_neg (by simp)]
  have hslice : sliceBatches 10 ([doc] : List IngestDocument).length [doc] = [[doc]] :=
    sliceBatches_single 10 [doc] (by simp) (by simp)
  rw [hslice, ingestLoop]
  cases hpb : processBatch cfg sf s [doc] sk with
  | error msg => simp [hpb]
  | ok p =>
    obtain ⟨rs, s'⟩ := p
    simp [hpb, ingestLoop]

theorem processBatch_establishes_hash (cfg : IngestCfg) (sf : String → Bool)
    (s₀ : DbState) (doc : IngestDocument) (e : String)
    (he : truthyStr doc.external_id = some e)
    (hcontent : doc.segments.isSome ∨ (truthyStr doc.text).isSome)
    (res₁ : List IngestResult) (s₁ : DbState)
    (h1 : processBatch cfg sf s₀ [doc] true = Except.ok (res₁, s₁)) :
    ∃ d, getDocumentByExternalId s₁ e = some d ∧
      d.content_sha256 = cfg.hash (contentForHash doc) := by
  by_cases hst : (prepareDoc cfg s₀ true doc).status = PrepStatus.skip
  · rw [processBatch_skip cfg sf s₀ doc true hst] at h1
    simp only [Except.ok.injEq, Prod.mk.injEq] at h1
    obtain ⟨d, hd, hh⟩ := prepareDoc_status_skip_elim cfg s₀ doc e he hst
    exact ⟨d, by rw [← h1.2]; exact hd, hh⟩
  · obtain ⟨dd, hdd, hddid, hdddoc, _⟩ :=
      buildDocData_singleton cfg (prepareDoc cfg s₀ true doc) hcontent
    by_cases hsf : sf dd.docId
    · rw [processBatch_store_fail_one cfg sf s₀ doc true dd hst hdd hsf] at h1
      exact absurd h1 (by simp)
    · rw [processBatch_store_one cfg sf s₀ doc true dd hst hdd
        (by simpa using hsf)] at h1
      simp only [Except.ok.injEq, Prod.mk.injEq] at h1
      have h1s : storeDoc cfg (prepareDoc cfg s₀ true doc) dd s₀ = s₁ := h1.2
      have hext : (docRecordOf cfg (prepareDoc cfg s₀ true doc) dd).external_id = e := by
        show jsOrStr dd.doc.external_id dd.docId = e
        obtain ⟨ha, hne⟩ := truthyStr_some_elim he
        rw [hdddoc]
        show jsOrStr doc.external_id dd.docId = e
        rw [ha]
        simp [jsOrStr, hne]
      refine ⟨docRecordOf cfg (prepareDoc cfg s₀ true doc) dd, ?_, rfl⟩
      show List.find? (fun d => d.external_id == e) s₁.documents = _
      rw [← h1s]
      have hdocs := storeDoc_documents cfg (prepareDoc cfg s₀ true doc) dd s₀
      rw [hdocs, ← hext]
      exact getDoc_upsert s₀ (docRecordOf cfg (prepareDoc cfg s₀ true doc) dd)

/-- C3: re-ingesting the same document (same `external_id`, same content,
`skipIfUnchanged` defaulted to true) after any successful first ingestion
yields status `skipped` on the second call and performs no writes at all:
the returned state is exactly the state after the first call, so the
stored document row, its segments and its chunks are unchanged.  The two
calls may use different clocks and nonces, as long as they hash with the
same function. -/
theorem c3_reingest_unchanged_skipped (cfg₁ cfg₂ : IngestCfg) (sf₁ sf₂ : String → Bool)
    (s₀ : DbState) (doc : IngestDocument) (e : String)
    (he : truthyStr doc.external_id = some e)
    (hcontent : doc.segments.isSome ∨ (truthyStr doc.text).isSome)
    (hhash : cfg₂.hash = cfg₁.hash)
    (res₁ : List IngestResult) (s₁ : DbState)
    (h1 : ingestBatch cfg₁ sf₁ s₀ [doc] true 10 = Except.ok (res₁, s₁)) :
    ingestBatch cfg₂ sf₂ s₁ [doc] true 10 =
      Except.ok ([{ doc_id := (prepareDoc cfg₂ s₁ true doc).docId, chunks := 0,
                    status := ResultStatus.skipped,
                    external_id := doc.external_id }], s₁) := by
  rw [ingestBatch_singleton] at h1
  obtain ⟨d, hlook, hh⟩ :=
    processBatch_establishes_hash cfg₁ sf₁ s₀ doc e he hcontent res₁ s₁ h1
  have hskip2 : (prepareDoc cfg₂ s₁ true doc).status = PrepStatus.skip :=
    prepareDoc_status_skip_intro cfg₂ s₁ doc e d he hlook (by rw [hhash]; exact hh)
  rw [ingestBatch_singleton]
  exact processBatch_skip cfg₂ sf₂ s₁ doc true hskip2

theorem c3_reingest_unchanged_skipped_witness :
    ingestBatch cfgW2 sfOk c3db [c3req] true 10 =
      Except.ok ([{ doc_id := (prepareDoc cfgW2 c3db true c3req).docId, chunks := 0,
                    status := ResultStatus.skipped, external_id := some "e1" }], c3db) :=
  c3_reingest_unchanged_skipped cfgW cfgW2 sfOk sfOk c3db c3req "e1" (by decide)
    (Or.inr (by decide)) rfl _ c3db rfl

theorem c7_searchSimilar_topk_order_witness :
    (searchRows c7db none).length ≤ 8 ∧
    (searchSimilar (fun x => x) c7db [(1 : ℚ)] 8 none).filter (fun r => r.score = 1) =
      ((searchRows c7db none).map (scoreRow (fun x => x) [(1 : ℚ)])).filter
        (fun r => r.score = 1) ∧
    (searchSimilar (fun x => x) c7db [(1 : ℚ)] 8 none).length =
      min 8 (searchRows c7db none).length :=
  ⟨by decide,
   (c7_searchSimilar_topk_order (fun x => x) c7db [(1 : ℚ)] 8 none).2.2.2 (by decide) 1,
   (c7_searchSimilar_topk_order (fun x => x) c7db [(1 : ℚ)] 8 none).1⟩

end PocketMCP
